import Mathlib

/-!
Shallow embedding of src/bin2s.py.

The source has two functions:
* sanitize_identifier: three regex passes turning a raw name into a
  legal assembler symbol, raising ValueError when no legal character
  survives the first pass;
* bin2s: validates alignment and line_length, sanitizes the identifier,
  measures the bytes remaining on the input stream with a tell/seek
  dance, and writes an assembly module (preamble, byte-directive lines,
  trailer) to the output stream, returning False for an empty payload.

Streams are modelled as a list of byte values plus a position; the text
written to the output stream is modelled as the list of output lines
(every write in the source ends lines with a newline).  Errors raised
become Except.error carrying the exact message string.
-/

/-- Characters kept by the first substitution in sanitize_identifier:
ASCII letters, digits, underscore, dot, slash, dash. -/
def isLegalChar (c : Char) : Bool :=
  ('A' ≤ c && c ≤ 'Z') || ('a' ≤ c && c ≤ 'z') || ('0' ≤ c && c ≤ '9') ||
    c == '_' || c == '.' || c == '/' || c == '-'

/-- Characters replaced by an underscore in the second substitution:
dot, slash, dash. -/
def isSeparator (c : Char) : Bool :=
  c == '.' || c == '/' || c == '-'

/-- ASCII decimal digit: the meaning of the regex digit escape on the
all-ASCII strings reaching the final substitution. -/
def isDigitChar (c : Char) : Bool :=
  '0' ≤ c && c ≤ '9'

/-- The final substitution of sanitize_identifier: a leading digit d is
replaced by _d, everything else is untouched. -/
def prependIfDigit : List Char → List Char
  | [] => []
  | c :: cs => if isDigitChar c then '_' :: c :: cs else c :: cs

/-- Model of sanitize_identifier (src/bin2s.py lines 56-61): filter to
the legal characters, fail when nothing survives, replace separators by
underscores and guard a leading digit. -/
def sanitize_identifier (identifier : String) : Except String String :=
  let filtered := identifier.data.filter isLegalChar
  if filtered = [] then
    .error "identifier doesn\x27t contain any legal characters"
  else
    .ok ⟨prependIfDigit (filtered.map (fun c => if isSeparator c then '_' else c))⟩

/-- The legal-identifier grammar [_A-Za-z][_A-Za-z0-9]* used by the
specification: used only to state claims about sanitize_identifier. -/
def isIdentChar (c : Char) : Bool :=
  ('A' ≤ c && c ≤ 'Z') || ('a' ≤ c && c ≤ 'z') || ('0' ≤ c && c ≤ '9') || c == '_'

/-- Decidable check that a string satisfies [_A-Za-z][_A-Za-z0-9]*. -/
def isLegalIdentifier (s : String) : Bool :=
  match s.data with
  | [] => false
  | c :: cs => isIdentChar c && !isDigitChar c && cs.all isIdentChar

/-- A readable byte stream: the bytes of the underlying resource and the
current position.  Mirrors the BytesIO / binary-file objects bin2s
receives. -/
structure ByteStream where
  data : List Nat
  pos : Nat
deriving DecidableEq

namespace ByteStream

/-- input.tell() -/
def tell (s : ByteStream) : Nat := s.pos

/-- input.seek(0, 2): move to end of stream. -/
def seekEnd (s : ByteStream) : ByteStream := { s with pos := s.data.length }

/-- input.seek(p): move to absolute position p. -/
def seekTo (s : ByteStream) (p : Nat) : ByteStream := { s with pos := p }

/-- input.read(n): return up to n bytes from the current position and
advance the position by the number of bytes actually read. -/
def read (s : ByteStream) (n : Nat) : List Nat × ByteStream :=
  let chunk := (s.data.drop s.pos).take n
  (chunk, { s with pos := s.pos + chunk.length })

end ByteStream

/-- The formatting of one byte value, python percent-3-u: decimal,
right-justified with spaces to at least 3 characters. -/
def byteField (b : Nat) : String :=
  String.mk (List.replicate (3 - (toString b).length) ' ') ++ toString b

/-- One byte-directive output line (src/bin2s.py line 156). -/
def byteLine (chunk : List Nat) : String :=
  "  .byte " ++ String.intercalate "," (chunk.map byteField)

/-- The dedented preamble written by the first fprint (lines 144-151),
split into output lines. -/
def preambleLines (ident : String) (alignment : Int) : List String :=
  [ "  .section .rodata",
    "  .balign " ++ toString alignment,
    "  .global " ++ ident,
    "  .global " ++ ident ++ "_end",
    "  .global " ++ ident ++ "_size",
    "",
    ident ++ ":" ]

/-- The dedented trailer written by the last fprint (lines 159-164),
split into output lines. -/
def trailerLines (ident : String) (size : Int) : List String :=
  [ "",
    ident ++ "_end:",
    "",
    "  .align",
    ident ++ "_size: .int " ++ toString size ]

/-- The while loop of bin2s (lines 153-157): while remaining > 0, read
up to line_length bytes, emit one byte-directive line, and subtract the
number of bytes read.  The extra fuel argument bounds the number of
iterations; bin2s passes the payload size, which is enough because with
line_length > 0 every iteration of the source loop consumes at least
one byte of the non-exhausted stream. -/
def writeLoop (line_length : Nat) : Nat → Int → ByteStream → List String × ByteStream
  | 0, _, s => ([], s)
  | fuel + 1, remaining, s =>
    if remaining > 0 then
      let r := s.read line_length
      let rest := writeLoop line_length fuel (remaining - (r.1.length : Int)) r.2
      (byteLine r.1 :: rest.1, rest.2)
    else ([], s)

/-- Model of bin2s (src/bin2s.py lines 64-166).  The first component of
the result is the list of lines written to the output stream (empty on
every error path and for an empty payload); the second is the raised
ValueError message or the returned boolean together with the final
state of the input stream. -/
def bin2s (identifier : String) (input : ByteStream)
    (alignment : Int := 4) (line_length : Int := 16) :
    List String × Except String (Bool × ByteStream) :=
  if ¬ (alignment > 0) then ([], .error "alignment must be greater than 0")
  else if ¬ (line_length > 0) then ([], .error "line_length must be greater than 0")
  else
    match sanitize_identifier identifier with
    | .error e => ([], .error e)
    | .ok ident =>
      let cur_pos := input.tell
      let s1 := input.seekEnd
      let size : Int := (s1.tell : Int) - (cur_pos : Int)
      let s2 := s1.seekTo cur_pos
      if size = 0 then ([], .ok (false, s2))
      else
        let res := writeLoop line_length.toNat size.toNat size s2
        (preambleLines ident alignment ++ res.1 ++ trailerLines ident size,
         .ok (true, res.2))

/-- Division of a list into consecutive chunks of n elements, the last
chunk possibly shorter: what the read loop of bin2s produces from the
remaining bytes of the stream.  (For n = 0 the recursion peels one
element per step; bin2s only uses n > 0, where each chunk is the next
n bytes.) -/
def chunksOf (n : Nat) : List Nat → List (List Nat)
  | [] => []
  | c :: cs => (c :: cs).take n :: chunksOf n (cs.drop (n - 1))
termination_by l => l.length
decreasing_by
  simp only [List.length_drop, List.length_cons]
  omega

/- Sanity checks against the doctest examples in src/bin2s.py. -/

example : sanitize_identifier "foo.bin" = .ok "foo_bin" := rfl
example : sanitize_identifier "4bit.chr" = .ok "_4bit_chr" := rfl
example : sanitize_identifier "$bar$8" = .ok "bar8" := rfl
example : sanitize_identifier "~~13/boo" = .ok "_13_boo" := rfl
example : sanitize_identifier "$$$" =
    .error "identifier doesn\x27t contain any legal characters" := rfl

example :
    bin2s "hello_world" ⟨[72, 101, 108, 108, 111, 32, 87, 111, 114, 108, 100], 0⟩ =
      ([ "  .section .rodata",
         "  .balign 4",
         "  .global hello_world",
         "  .global hello_world_end",
         "  .global hello_world_size",
         "",
         "hello_world:",
         "  .byte  72,101,108,108,111, 32, 87,111,114,108,100",
         "",
         "hello_world_end:",
         "",
         "  .align",
         "hello_world_size: .int 11" ],
       .ok (true, ⟨[72, 101, 108, 108, 111, 32, 87, 111, 114, 108, 100], 11⟩)) := rfl

example : bin2s "empty" ⟨[], 0⟩ = ([], .ok (false, ⟨[], 0⟩)) := rfl

/-! ### Character-level facts about the regex classes -/

lemma isLegalChar_iff (c : Char) :
    isLegalChar c = true ↔ (isIdentChar c = true ∨ isSeparator c = true) := by
  simp only [isLegalChar, isIdentChar, isSeparator, Bool.or_eq_true, beq_iff_eq,
    Bool.and_eq_true, decide_eq_true_eq]
  tauto

lemma isIdentChar_of_sep_false (c : Char) (hl : isLegalChar c = true)
    (hs : isSeparator c = false) : isIdentChar c = true := by
  rcases (isLegalChar_iff c).mp hl with h | h
  · exact h
  · rw [h] at hs; cases hs

lemma sep_false_of_ident (c : Char) (h : isIdentChar c = true) :
    isSeparator c = false := by
  by_contra hc
  rw [Bool.not_eq_false] at hc
  simp only [isSeparator, Bool.or_eq_true, beq_iff_eq] at hc
  rcases hc with (rfl | rfl) | rfl <;> simp [isIdentChar] at h

lemma legal_of_ident (c : Char) (h : isIdentChar c = true) :
    isLegalChar c = true :=
  (isLegalChar_iff c).mpr (Or.inl h)

lemma list_map_self {α : Type} (f : α → α) (l : List α)
    (h : ∀ a ∈ l, f a = a) : l.map f = l := by
  calc l.map f = l.map id := List.map_congr_left h
  _ = l := List.map_id l

/-! ### Behaviour of sanitize_identifier -/

lemma sanitize_identifier_of_ne_nil (x : String)
    (h : x.data.filter isLegalChar ≠ []) :
    sanitize_identifier x =
      .ok ⟨prependIfDigit ((x.data.filter isLegalChar).map
        (fun c => if isSeparator c then '_' else c))⟩ := by
  simp only [sanitize_identifier, if_neg h]

lemma sanitize_identifier_of_nil (x : String)
    (h : x.data.filter isLegalChar = []) :
    sanitize_identifier x =
      .error "identifier doesn\x27t contain any legal characters" := by
  simp only [sanitize_identifier, if_pos h]

lemma replaced_all_ident (x : String) :
    ∀ c ∈ (x.data.filter isLegalChar).map (fun c => if isSeparator c then '_' else c),
      isIdentChar c = true := by
  intro c hc
  rw [List.mem_map] at hc
  obtain ⟨a, ha, rfl⟩ := hc
  have hl : isLegalChar a = true := (List.mem_filter.mp ha).2
  by_cases hs : isSeparator a = true
  · simp only [if_pos hs]; decide
  · rw [Bool.not_eq_true] at hs
    rw [if_neg (by simp [hs])]
    exact isIdentChar_of_sep_false a hl hs

/-- Claim C4: on any input containing at least one legal character,
sanitize_identifier succeeds and its result satisfies the
legal-identifier grammar underscore-or-letter first, then
underscores, letters and digits. -/
theorem sanitize_identifier_legal_of_any (x : String)
    (h : x.data.any isLegalChar = true) :
    ∃ r, sanitize_identifier x = .ok r ∧ isLegalIdentifier r = true := by
  have hf : x.data.filter isLegalChar ≠ [] := by
    intro hnil
    rw [List.filter_eq_nil_iff] at hnil
    rw [List.any_eq_true] at h
    obtain ⟨c, hc, hcl⟩ := h
    exact hnil c hc hcl
  refine ⟨_, sanitize_identifier_of_ne_nil x hf, ?_⟩
  have hall := replaced_all_ident x
  set repl := (x.data.filter isLegalChar).map (fun c => if isSeparator c then '_' else c)
    with hrepl
  have hrne : repl ≠ [] := by
    rw [hrepl]
    exact fun hcon => hf (List.map_eq_nil_iff.mp hcon)
  obtain ⟨c, cs, hcons⟩ := List.exists_cons_of_ne_nil hrne
  rw [hcons]
  rw [hcons] at hall
  have hcid : isIdentChar c = true := hall c (List.mem_cons_self c cs)
  have hcsid : ∀ a ∈ cs, isIdentChar a = true := fun a ha =>
    hall a (List.mem_cons_of_mem c ha)
  by_cases hd : isDigitChar c = true
  · simp only [prependIfDigit, if_pos hd, isLegalIdentifier]
    simp only [Bool.and_eq_true, List.all_eq_true, Bool.not_eq_true']
    refine ⟨by decide, ?_⟩
    intro a ha
    rcases List.mem_cons.mp ha with rfl | ha
    · exact hcid
    · exact hcsid a ha
  · simp only [prependIfDigit, if_neg hd, isLegalIdentifier]
    rw [Bool.not_eq_true] at hd
    simp only [Bool.and_eq_true, List.all_eq_true, Bool.not_eq_true']
    exact ⟨⟨hcid, hd⟩, hcsid⟩

/-- Witness for C4 at the doctest input "foo.bin". -/
theorem sanitize_identifier_legal_of_any_witness :
    "foo.bin".data.any isLegalChar = true ∧
      ∃ r, sanitize_identifier "foo.bin" = .ok r ∧ isLegalIdentifier r = true :=
  ⟨by decide, sanitize_identifier_legal_of_any "foo.bin" (by decide)⟩

/-- Claim C5: sanitize_identifier fails exactly when the input contains
no legal character, and the only failure is the invalid-identifier
message. -/
theorem sanitize_identifier_error_iff (x : String) :
    (∃ e, sanitize_identifier x = .error e) ↔
      (∀ c ∈ x.data, isLegalChar c = false) := by
  constructor
  · rintro ⟨e, he⟩
    by_cases hf : x.data.filter isLegalChar = []
    · intro c hc
      rw [List.filter_eq_nil_iff] at hf
      have := hf c hc
      simpa using this
    · rw [sanitize_identifier_of_ne_nil x hf] at he
      cases he
  · intro h
    refine ⟨_, sanitize_identifier_of_nil x ?_⟩
    rw [List.filter_eq_nil_iff]
    intro c hc
    simp [h c hc]

/-- Helper for C6: sanitize_identifier is the identity on strings that
already satisfy the legal-identifier grammar. -/
lemma sanitize_identifier_fix (x : String) (h : isLegalIdentifier x = true) :
    sanitize_identifier x = .ok x := by
  unfold isLegalIdentifier at h
  obtain ⟨c, cs, hcons⟩ : ∃ c cs, x.data = c :: cs := by
    cases hx : x.data with
    | nil => rw [hx] at h; cases h
    | cons c cs => exact ⟨c, cs, rfl⟩
  rw [hcons] at h
  simp only [Bool.and_eq_true, List.all_eq_true, Bool.not_eq_true'] at h
  obtain ⟨⟨h1, h2⟩, h3⟩ := h
  have hallid : ∀ a ∈ x.data, isIdentChar a = true := by
    rw [hcons]
    intro a ha
    rcases List.mem_cons.mp ha with rfl | ha
    · exact h1
    · exact h3 a ha
  have hfilter : x.data.filter isLegalChar = x.data :=
    List.filter_eq_self.mpr fun a ha => legal_of_ident a (hallid a ha)
  have hne : x.data.filter isLegalChar ≠ [] := by
    rw [hfilter, hcons]; exact List.cons_ne_nil c cs
  rw [sanitize_identifier_of_ne_nil x hne, hfilter]
  have hmap : x.data.map (fun c => if isSeparator c then '_' else c) = x.data :=
    list_map_self _ x.data fun a ha => by
      rw [if_neg (by simp [sep_false_of_ident a (hallid a ha)])]
  rw [hmap]
  have hpre : prependIfDigit x.data = x.data := by
    rw [hcons]
    show (if isDigitChar c = true then '_' :: c :: cs else c :: cs) = c :: cs
    rw [if_neg (by rw [h2]; decide)]
  rw [hpre]

/-- Claim C6: sanitize_identifier is idempotent on legal identifiers;
indeed it maps every legal identifier to itself. -/
theorem sanitize_identifier_idempotent (x : String)
    (h : isLegalIdentifier x = true) :
    sanitize_identifier x = .ok x ∧
      (sanitize_identifier x).bind sanitize_identifier = sanitize_identifier x := by
  have hfix := sanitize_identifier_fix x h
  refine ⟨hfix, ?_⟩
  rw [hfix]
  show sanitize_identifier x = .ok x
  exact hfix

/-- Witness for C6 at the identifier "hello_world". -/
theorem sanitize_identifier_idempotent_witness :
    isLegalIdentifier "hello_world" = true ∧
      (sanitize_identifier "hello_world" = .ok "hello_world" ∧
        (sanitize_identifier "hello_world").bind sanitize_identifier =
          sanitize_identifier "hello_world") :=
  ⟨by decide, sanitize_identifier_idempotent "hello_world" (by decide)⟩

/-! ### Facts about chunksOf -/

lemma chunksOf_cons (n : Nat) (hn : 0 < n) (c : Nat) (cs : List Nat) :
    chunksOf n (c :: cs) = (c :: cs).take n :: chunksOf n ((c :: cs).drop n) := by
  obtain ⟨m, rfl⟩ : ∃ m, n = m + 1 := ⟨n - 1, by omega⟩
  rw [chunksOf]
  simp [List.drop_succ_cons]

lemma chunksOf_ne_nil (n : Nat) (c : Nat) (cs : List Nat) :
    chunksOf n (c :: cs) ≠ [] := by
  rw [chunksOf]
  exact List.cons_ne_nil _ _

lemma chunksOf_sum (n : Nat) (hn : 0 < n) :
    ∀ l : List Nat, ((chunksOf n l).map List.length).sum = l.length
  | [] => by rw [chunksOf]; rfl
  | c :: cs => by
    rw [chunksOf_cons n hn]
    have ih := chunksOf_sum n hn ((c :: cs).drop n)
    simp only [List.map_cons, List.sum_cons, ih, List.length_take, List.length_drop,
      List.length_cons]
    omega
termination_by l => l.length
decreasing_by
  simp only [List.length_drop, List.length_cons]
  omega

lemma chunksOf_length (n : Nat) (hn : 0 < n) :
    ∀ l : List Nat, l ≠ [] → (chunksOf n l).length = (l.length - 1) / n + 1
  | [], h => absurd rfl h
  | c :: cs, _ => by
    rw [chunksOf_cons n hn]
    by_cases hlen : (c :: cs).length ≤ n
    · have hdrop : (c :: cs).drop n = [] := List.drop_eq_nil_iff.mpr hlen
      rw [hdrop, chunksOf]
      have hlt : (c :: cs).length - 1 < n := by
        simp only [List.length_cons] at hlen ⊢
        omega
      rw [Nat.div_eq_of_lt hlt]
      simp
    · have hlen' : n < cs.length + 1 := by
        simp only [List.length_cons] at hlen
        omega
      have hne : (c :: cs).drop n ≠ [] := by
        rw [Ne, List.drop_eq_nil_iff, List.length_cons]
        omega
      have ih := chunksOf_length n hn ((c :: cs).drop n) hne
      simp only [List.length_cons, ih, List.length_drop]
      have h1 : cs.length + 1 - n - 1 + n = cs.length + 1 - 1 := by omega
      rw [← Nat.add_div_right (cs.length + 1 - n - 1) hn, h1]
termination_by l => l.length
decreasing_by
  simp only [List.length_drop, List.length_cons]
  omega

lemma chunksOf_dropLast_length (n : Nat) (hn : 0 < n) :
    ∀ l : List Nat, ∀ ch ∈ (chunksOf n l).dropLast, ch.length = n
  | [], ch => by rw [chunksOf]; intro h; cases h
  | c :: cs, ch => by
    rw [chunksOf_cons n hn]
    intro hmem
    by_cases hlen : (c :: cs).length ≤ n
    · have hdrop : (c :: cs).drop n = [] := List.drop_eq_nil_iff.mpr hlen
      rw [hdrop, chunksOf] at hmem
      cases hmem
    · have hne : (c :: cs).drop n ≠ [] := by
        rw [Ne, List.drop_eq_nil_iff]
        omega
      obtain ⟨d, ds, hds⟩ := List.exists_cons_of_ne_nil hne
      rw [hds, chunksOf_cons n hn, List.dropLast_cons₂, ← chunksOf_cons n hn, ← hds]
        at hmem
      rcases List.mem_cons.mp hmem with rfl | hmem
      · simp only [List.length_take]
        omega
      · exact chunksOf_dropLast_length n hn ((c :: cs).drop n) ch hmem
termination_by l => l.length
decreasing_by
  simp only [List.length_drop, List.length_cons]
  omega

lemma chunksOf_getLast_length (n : Nat) (hn : 0 < n) :
    ∀ l : List Nat, l ≠ [] →
      ∃ last, (chunksOf n l).getLast? = some last ∧
        last.length = (if l.length % n = 0 then n else l.length % n)
  | [], h => absurd rfl h
  | c :: cs, _ => by
    by_cases hlen : (c :: cs).length ≤ n
    · have hdrop : (c :: cs).drop n = [] := List.drop_eq_nil_iff.mpr hlen
      rw [chunksOf_cons n hn, hdrop, chunksOf]
      refine ⟨(c :: cs).take n, rfl, ?_⟩
      rw [List.take_of_length_le hlen]
      rcases Nat.lt_or_ge (c :: cs).length n with hlt | hge
      · rw [if_neg (by rw [Nat.mod_eq_of_lt hlt]; simp)]
        rw [Nat.mod_eq_of_lt hlt]
      · have : (c :: cs).length = n := by omega
        rw [this, if_pos (Nat.mod_self n)]
    · have hne : (c :: cs).drop n ≠ [] := by
        rw [Ne, List.drop_eq_nil_iff]
        omega
      obtain ⟨last, hl1, hl2⟩ := chunksOf_getLast_length n hn ((c :: cs).drop n) hne
      refine ⟨last, ?_, ?_⟩
      · rw [chunksOf_cons n hn]
        obtain ⟨d, ds, hds⟩ := List.exists_cons_of_ne_nil hne
        rw [hds, chunksOf_cons n hn, List.getLast?_cons_cons,
          ← chunksOf_cons n hn, ← hds]
        exact hl1
      · rw [hl2, List.length_drop]
        have hmod : ((c :: cs).length - n) % n = (c :: cs).length % n := by
          have h1 : (c :: cs).length - n + n = (c :: cs).length := by
            simp only [List.length_cons] at hlen ⊢
            omega
          conv_rhs => rw [← h1]
          rw [Nat.add_mod_right]
        rw [hmod]
termination_by l => l.length
decreasing_by
  simp only [List.length_drop, List.length_cons]
  omega

lemma mem_of_mem_chunksOf (n : Nat) :
    ∀ (l : List Nat) (ch : List Nat), ch ∈ chunksOf n l → ∀ b ∈ ch, b ∈ l
  | [], ch => by rw [chunksOf]; intro h; cases h
  | c :: cs, ch => by
    rw [chunksOf]
    intro hmem b hb
    rcases List.mem_cons.mp hmem with rfl | hmem
    · exact List.take_subset n (c :: cs) hb
    · have := mem_of_mem_chunksOf n (cs.drop (n - 1)) ch hmem b hb
      exact List.mem_cons_of_mem c (List.drop_subset (n - 1) cs this)
termination_by l => l.length
decreasing_by
  simp only [List.length_drop, List.length_cons]
  omega

/-! ### The read loop writes exactly the chunked payload -/

lemma writeLoop_spec (L : Nat) (hL : 0 < L) :
    ∀ (fuel : Nat) (s : ByteStream), (s.data.drop s.pos).length ≤ fuel →
      writeLoop L fuel ((s.data.drop s.pos).length : Int) s =
        ((chunksOf L (s.data.drop s.pos)).map byteLine,
          ⟨s.data, s.pos + (s.data.drop s.pos).length⟩) := by
  intro fuel
  induction fuel with
  | zero =>
    intro s hle
    obtain ⟨d, p⟩ := s
    have hnil : d.drop p = [] := List.length_eq_zero.mp (Nat.le_zero.mp hle)
    simp only at hnil ⊢
    rw [hnil]
    simp [writeLoop, chunksOf]
  | succ m ih =>
    intro s hle
    obtain ⟨d, p⟩ := s
    simp only at hle ⊢
    by_cases hp : d.drop p = []
    · rw [hp]
      simp [writeLoop, chunksOf]
    · have hlen1 : 0 < (d.drop p).length := List.length_pos.mpr hp
      simp only [writeLoop, if_pos (by exact_mod_cast hlen1 : ((d.drop p).length : Int) > 0),
        ByteStream.read]
      set ch := (d.drop p).take L with hch
      have hk3 : ch.length = min L (d.drop p).length := by
        rw [hch, List.length_take]
      have hk1 : ch.length ≤ (d.drop p).length := by omega
      have hk2 : 0 < ch.length := by omega
      have hdd : (d.drop p).drop ch.length = d.drop (p + ch.length) :=
        List.drop_drop ch.length p d
      have hPd : (d.drop p).drop ch.length = (d.drop p).drop L := by
        rcases Nat.le_total L (d.drop p).length with hle2 | hge
        · have : ch.length = L := by omega
          rw [this]
        · have h1 : (d.drop p).drop ch.length = [] :=
            List.drop_eq_nil_iff.mpr (by omega)
          have h2 : (d.drop p).drop L = [] := List.drop_eq_nil_iff.mpr hge
          rw [h1, h2]
      have hrem : ((d.drop p).length : Int) - (ch.length : Int) =
          ((d.drop (p + ch.length)).length : Int) := by
        rw [← hdd]
        conv_rhs => rw [List.length_drop]
        rw [Nat.cast_sub hk1]
      have hihle : (d.drop (p + ch.length)).length ≤ m := by
        rw [← hdd, List.length_drop]
        omega
      have hihs := ih ⟨d, p + ch.length⟩ hihle
      simp only at hihs
      rw [hrem, hihs]
      obtain ⟨c, cs, hcons⟩ := List.exists_cons_of_ne_nil hp
      have hchunks : chunksOf L (d.drop p) = ch :: chunksOf L (d.drop (p + ch.length)) := by
        rw [← hdd, hPd, hch, hcons]
        exact chunksOf_cons L hL c cs
      have hposeq : p + ch.length + (d.drop (p + ch.length)).length =
          p + (d.drop p).length := by
        have h2 : (d.drop (p + ch.length)).length = (d.drop p).length - ch.length := by
          rw [← hdd, List.length_drop]
        omega
      rw [hchunks, List.map_cons, hposeq]

/-! ### Unfolding bin2s on each of its paths -/

lemma bin2s_invalid_alignment (id : String) (s : ByteStream) (A L : Int)
    (hA : A ≤ 0) :
    bin2s id s A L = ([], .error "alignment must be greater than 0") := by
  simp only [bin2s, if_pos (by omega : ¬ (A > 0))]

lemma bin2s_invalid_line_length (id : String) (s : ByteStream) (A L : Int)
    (hA : 0 < A) (hL : L ≤ 0) :
    bin2s id s A L = ([], .error "line_length must be greater than 0") := by
  simp only [bin2s, if_neg (not_not_intro hA), if_pos (by omega : ¬ (L > 0))]

lemma bin2s_invalid_identifier (id : String) (s : ByteStream) (A L : Int)
    (e : String) (hA : 0 < A) (hL : 0 < L)
    (hid : sanitize_identifier id = .error e) :
    bin2s id s A L = ([], .error e) := by
  simp only [bin2s, if_neg (not_not_intro hA), if_neg (not_not_intro hL), hid]

lemma sanitize_identifier_error_msg (x : String) (e : String)
    (h : sanitize_identifier x = .error e) :
    e = "identifier doesn\x27t contain any legal characters" := by
  by_cases hf : x.data.filter isLegalChar = []
  · rw [sanitize_identifier_of_nil x hf] at h
    injection h with h1
    exact h1.symm
  · rw [sanitize_identifier_of_ne_nil x hf] at h
    cases h

lemma bin2s_empty_payload_eq (id ident : String) (s : ByteStream) (A L : Int)
    (hA : 0 < A) (hL : 0 < L)
    (hid : sanitize_identifier id = .ok ident)
    (hpos : s.pos ≤ s.data.length)
    (hemp : s.data.drop s.pos = []) :
    bin2s id s A L = ([], .ok (false, s)) := by
  obtain ⟨d, p⟩ := s
  simp only at hpos hemp
  have hpe : p = d.length := by
    have := List.drop_eq_nil_iff.mp hemp
    omega
  subst hpe
  simp only [bin2s, if_neg (not_not_intro hA), if_neg (not_not_intro hL), hid,
    ByteStream.tell, ByteStream.seekEnd, ByteStream.seekTo]
  rw [if_pos (sub_self _)]

lemma bin2s_ok (id ident : String) (s : ByteStream) (A L : Int)
    (hA : 0 < A) (hL : 0 < L)
    (hid : sanitize_identifier id = .ok ident)
    (hpos : s.pos ≤ s.data.length)
    (hne : s.data.drop s.pos ≠ []) :
    bin2s id s A L =
      (preambleLines ident A
        ++ (chunksOf L.toNat (s.data.drop s.pos)).map byteLine
        ++ trailerLines ident ((s.data.drop s.pos).length : Int),
       .ok (true, ⟨s.data, s.pos + (s.data.drop s.pos).length⟩)) := by
  obtain ⟨d, p⟩ := s
  simp only at hpos hne ⊢
  have hlen1 : 0 < (d.drop p).length := List.length_pos.mpr hne
  simp only [bin2s, if_neg (not_not_intro hA), if_neg (not_not_intro hL), hid,
    ByteStream.tell, ByteStream.seekEnd, ByteStream.seekTo]
  have hsz : ((d.length : Int) - (p : Int)) = ((d.drop p).length : Int) := by
    rw [List.length_drop, Nat.cast_sub hpos]
  have hszne : ¬ ((d.length : Int) - (p : Int) = 0) := by
    rw [hsz]
    omega
  rw [if_neg hszne, hsz, Int.toNat_natCast]
  have hws := writeLoop_spec L.toNat (by omega) (d.drop p).length ⟨d, p⟩ (le_refl _)
  simp only at hws
  rw [hws]

/-! ### Claims about the module text -/

lemma byteField_length (b : Nat) :
    (byteField b).length = max 3 (toString b).length := by
  show (List.replicate (3 - (toString b).length) ' ' ++ (toString b).data).length = _
  rw [List.length_append, List.length_replicate]
  have h : (toString b).data.length = (toString b).length := rfl
  rw [h]
  omega

/-- Claim C1: for a non-empty payload, a legal identifier and positive
parameters, the module text is exactly the section line, the balign
line, the three global declarations, a blank line, the start label, the
byte-directive lines (comma separated byteField values per chunk of
line_length bytes, values between 0 and 255), a blank line, the end
label, a blank line, the operand-less align directive, and the size
line with the payload length in decimal. -/
theorem bin2s_module_structure (id : String) (s : ByteStream) (A L : Int)
    (hid : isLegalIdentifier id = true)
    (hA : 0 < A) (hL : 0 < L)
    (hpos : s.pos ≤ s.data.length)
    (hne : s.data.drop s.pos ≠ [])
    (hbytes : ∀ b ∈ s.data, b ≤ 255) :
    (∃ s2,
      bin2s id s A L =
        ([ "  .section .rodata",
           "  .balign " ++ toString A,
           "  .global " ++ id,
           "  .global " ++ id ++ "_end",
           "  .global " ++ id ++ "_size",
           "",
           id ++ ":" ]
         ++ (chunksOf L.toNat (s.data.drop s.pos)).map
             (fun ch => "  .byte " ++ String.intercalate "," (ch.map byteField))
         ++ [ "",
              id ++ "_end:",
              "",
              "  .align",
              id ++ "_size: .int " ++ toString ((s.data.drop s.pos).length : Int) ],
         .ok (true, s2))) ∧
    (∀ ch ∈ chunksOf L.toNat (s.data.drop s.pos), ∀ b ∈ ch, b ≤ 255) ∧
    (∀ b : Nat, (byteField b).length = max 3 (toString b).length ∧
       byteField b =
         String.mk (List.replicate (3 - (toString b).length) ' ') ++ toString b) := by
  have hsid : sanitize_identifier id = .ok id := sanitize_identifier_fix id hid
  refine ⟨⟨⟨s.data, s.pos + (s.data.drop s.pos).length⟩, ?_⟩, ?_, ?_⟩
  · rw [bin2s_ok id id s A L hA hL hsid hpos hne]
    rfl
  · intro ch hch b hb
    exact hbytes b
      (List.drop_subset _ _ (mem_of_mem_chunksOf L.toNat _ ch hch b hb))
  · intro b
    exact ⟨byteField_length b, rfl⟩

/-- Witness for C1 at a concrete five-byte payload, identifier foo,
alignment 4 and line length 2. -/
theorem bin2s_module_structure_witness :
    isLegalIdentifier "foo" = true ∧ (0 : Int) < 4 ∧ (0 : Int) < 2 ∧
    (ByteStream.mk [1, 2, 3, 4, 5] 0).pos ≤ (ByteStream.mk [1, 2, 3, 4, 5] 0).data.length ∧
    (ByteStream.mk [1, 2, 3, 4, 5] 0).data.drop (ByteStream.mk [1, 2, 3, 4, 5] 0).pos ≠ [] ∧
    (∀ b ∈ (ByteStream.mk [1, 2, 3, 4, 5] 0).data, b ≤ 255) ∧
    ((∃ s2,
      bin2s "foo" ⟨[1, 2, 3, 4, 5], 0⟩ 4 2 =
        ([ "  .section .rodata",
           "  .balign " ++ toString (4 : Int),
           "  .global " ++ "foo",
           "  .global " ++ "foo" ++ "_end",
           "  .global " ++ "foo" ++ "_size",
           "",
           "foo" ++ ":" ]
         ++ (chunksOf (2 : Int).toNat
              ((ByteStream.mk [1, 2, 3, 4, 5] 0).data.drop
                (ByteStream.mk [1, 2, 3, 4, 5] 0).pos)).map
             (fun ch => "  .byte " ++ String.intercalate "," (ch.map byteField))
         ++ [ "",
              "foo" ++ "_end:",
              "",
              "  .align",
              "foo" ++ "_size: .int " ++
                toString (((ByteStream.mk [1, 2, 3, 4, 5] 0).data.drop
                  (ByteStream.mk [1, 2, 3, 4, 5] 0).pos).length : Int) ],
         .ok (true, s2))) ∧
    (∀ ch ∈ chunksOf (2 : Int).toNat
        ((ByteStream.mk [1, 2, 3, 4, 5] 0).data.drop
          (ByteStream.mk [1, 2, 3, 4, 5] 0).pos), ∀ b ∈ ch, b ≤ 255) ∧
    (∀ b : Nat, (byteField b).length = max 3 (toString b).length ∧
       byteField b =
         String.mk (List.replicate (3 - (toString b).length) ' ') ++ toString b)) :=
  ⟨by decide, by decide, by decide, by decide, by decide, by decide,
    bin2s_module_structure "foo" ⟨[1, 2, 3, 4, 5], 0⟩ 4 2 (by decide) (by decide)
      (by decide) (by decide) (by decide) (by decide)⟩

/-- Claim C2: for a non-empty payload and line_length > 0 the encoder
reports wasWritten true; the byte-directive lines are exactly the
chunked payload, their number is the size of the payload divided by
line_length rounded up, every chunk except the last holds line_length
values, and the last holds size mod line_length values, or line_length
when line_length divides the size. -/
theorem bin2s_line_counts (id ident : String) (s : ByteStream) (A L : Int)
    (hA : 0 < A) (hL : 0 < L)
    (hid : sanitize_identifier id = .ok ident)
    (hpos : s.pos ≤ s.data.length)
    (hne : s.data.drop s.pos ≠ []) :
    ∃ s2,
      (bin2s id s A L).2 = .ok (true, s2) ∧
      (bin2s id s A L).1 =
        preambleLines ident A
          ++ (chunksOf L.toNat (s.data.drop s.pos)).map byteLine
          ++ trailerLines ident ((s.data.drop s.pos).length : Int) ∧
      ((chunksOf L.toNat (s.data.drop s.pos)).map byteLine).length =
        ((s.data.drop s.pos).length + L.toNat - 1) / L.toNat ∧
      (∀ ch ∈ (chunksOf L.toNat (s.data.drop s.pos)).dropLast,
        ch.length = L.toNat) ∧
      (∃ last, (chunksOf L.toNat (s.data.drop s.pos)).getLast? = some last ∧
        last.length = (if (s.data.drop s.pos).length % L.toNat = 0 then L.toNat
          else (s.data.drop s.pos).length % L.toNat)) := by
  have hL0 : 0 < L.toNat := by omega
  have heq := bin2s_ok id ident s A L hA hL hid hpos hne
  refine ⟨⟨s.data, s.pos + (s.data.drop s.pos).length⟩, ?_, ?_, ?_, ?_, ?_⟩
  · rw [heq]
  · rw [heq]
  · rw [List.length_map, chunksOf_length L.toNat hL0 _ hne]
    have hlen1 : 0 < (s.data.drop s.pos).length := List.length_pos.mpr hne
    have e1 : (s.data.drop s.pos).length + L.toNat - 1 =
        ((s.data.drop s.pos).length - 1) + L.toNat := by omega
    rw [e1, Nat.add_div_right _ hL0]
  · exact chunksOf_dropLast_length L.toNat hL0 _
  · exact chunksOf_getLast_length L.toNat hL0 _ hne

/-- Witness for C2 at a concrete five-byte payload with line length 2:
three byte lines, the first two of two values, the last of one. -/
theorem bin2s_line_counts_witness :
    (0 : Int) < 4 ∧ (0 : Int) < 2 ∧
    sanitize_identifier "foo" = .ok "foo" ∧
    (ByteStream.mk [1, 2, 3, 4, 5] 0).pos ≤ (ByteStream.mk [1, 2, 3, 4, 5] 0).data.length ∧
    (ByteStream.mk [1, 2, 3, 4, 5] 0).data.drop (ByteStream.mk [1, 2, 3, 4, 5] 0).pos ≠ [] ∧
    (∃ s2,
      (bin2s "foo" ⟨[1, 2, 3, 4, 5], 0⟩ 4 2).2 = .ok (true, s2) ∧
      (bin2s "foo" ⟨[1, 2, 3, 4, 5], 0⟩ 4 2).1 =
        preambleLines "foo" 4
          ++ (chunksOf (2 : Int).toNat
               ((ByteStream.mk [1, 2, 3, 4, 5] 0).data.drop
                 (ByteStream.mk [1, 2, 3, 4, 5] 0).pos)).map byteLine
          ++ trailerLines "foo"
               (((ByteStream.mk [1, 2, 3, 4, 5] 0).data.drop
                 (ByteStream.mk [1, 2, 3, 4, 5] 0).pos).length : Int) ∧
      ((chunksOf (2 : Int).toNat
          ((ByteStream.mk [1, 2, 3, 4, 5] 0).data.drop
            (ByteStream.mk [1, 2, 3, 4, 5] 0).pos)).map byteLine).length =
        (((ByteStream.mk [1, 2, 3, 4, 5] 0).data.drop
            (ByteStream.mk [1, 2, 3, 4, 5] 0).pos).length + (2 : Int).toNat - 1) /
          (2 : Int).toNat ∧
      (∀ ch ∈ (chunksOf (2 : Int).toNat
          ((ByteStream.mk [1, 2, 3, 4, 5] 0).data.drop
            (ByteStream.mk [1, 2, 3, 4, 5] 0).pos)).dropLast,
        ch.length = (2 : Int).toNat) ∧
      (∃ last, (chunksOf (2 : Int).toNat
          ((ByteStream.mk [1, 2, 3, 4, 5] 0).data.drop
            (ByteStream.mk [1, 2, 3, 4, 5] 0).pos)).getLast? = some last ∧
        last.length = (if ((ByteStream.mk [1, 2, 3, 4, 5] 0).data.drop
            (ByteStream.mk [1, 2, 3, 4, 5] 0).pos).length % (2 : Int).toNat = 0
          then (2 : Int).toNat
          else ((ByteStream.mk [1, 2, 3, 4, 5] 0).data.drop
            (ByteStream.mk [1, 2, 3, 4, 5] 0).pos).length % (2 : Int).toNat))) :=
  ⟨by decide, by decide, rfl, by decide, by decide,
    bin2s_line_counts "foo" "foo" ⟨[1, 2, 3, 4, 5], 0⟩ 4 2 (by decide) (by decide)
      rfl (by decide) (by decide)⟩

/-- Claim C3: on an empty payload, with valid parameters and a
sanitizable identifier, bin2s returns False, writes nothing, and leaves
the stream where it started. -/
theorem bin2s_empty_payload (id ident : String) (s : ByteStream) (A L : Int)
    (hA : 0 < A) (hL : 0 < L)
    (hid : sanitize_identifier id = .ok ident)
    (hpos : s.pos ≤ s.data.length)
    (hemp : s.data.drop s.pos = []) :
    bin2s id s A L = ([], .ok (false, s)) :=
  bin2s_empty_payload_eq id ident s A L hA hL hid hpos hemp

/-- Witness for C3 at a fully consumed two-byte stream. -/
theorem bin2s_empty_payload_witness :
    (0 : Int) < 4 ∧ (0 : Int) < 16 ∧
    sanitize_identifier "foo" = .ok "foo" ∧
    (ByteStream.mk [9, 9] 2).pos ≤ (ByteStream.mk [9, 9] 2).data.length ∧
    (ByteStream.mk [9, 9] 2).data.drop (ByteStream.mk [9, 9] 2).pos = [] ∧
    bin2s "foo" ⟨[9, 9], 2⟩ 4 16 = ([], .ok (false, ⟨[9, 9], 2⟩)) :=
  ⟨by decide, by decide, rfl, by decide, by decide,
    bin2s_empty_payload "foo" "foo" ⟨[9, 9], 2⟩ 4 16 (by decide) (by decide)
      rfl (by decide) (by decide)⟩

/-- Claim C7: the number of byte values across all byte-directive lines
equals the payload length, which is the decimal value declared on the
size line of the trailer. -/
theorem bin2s_size_roundtrip (id ident : String) (s : ByteStream) (A L : Int)
    (hA : 0 < A) (hL : 0 < L)
    (hid : sanitize_identifier id = .ok ident)
    (hpos : s.pos ≤ s.data.length)
    (hne : s.data.drop s.pos ≠ []) :
    ∃ s2,
      bin2s id s A L =
        (preambleLines ident A
          ++ (chunksOf L.toNat (s.data.drop s.pos)).map byteLine
          ++ trailerLines ident ((s.data.drop s.pos).length : Int),
         .ok (true, s2)) ∧
      ((chunksOf L.toNat (s.data.drop s.pos)).map List.length).sum =
        (s.data.drop s.pos).length ∧
      trailerLines ident ((s.data.drop s.pos).length : Int) =
        [ "", ident ++ "_end:", "", "  .align",
          ident ++ "_size: .int " ++ toString ((s.data.drop s.pos).length) ] := by
  have hL0 : 0 < L.toNat := by omega
  exact ⟨⟨s.data, s.pos + (s.data.drop s.pos).length⟩,
    bin2s_ok id ident s A L hA hL hid hpos hne,
    chunksOf_sum L.toNat hL0 _, rfl⟩

/-- Witness for C7 at the payload 0, 255, 7 with line length 2. -/
theorem bin2s_size_roundtrip_witness :
    (0 : Int) < 1 ∧ (0 : Int) < 2 ∧
    sanitize_identifier "foo" = .ok "foo" ∧
    (ByteStream.mk [0, 255, 7] 0).pos ≤ (ByteStream.mk [0, 255, 7] 0).data.length ∧
    (ByteStream.mk [0, 255, 7] 0).data.drop (ByteStream.mk [0, 255, 7] 0).pos ≠ [] ∧
    (∃ s2,
      bin2s "foo" ⟨[0, 255, 7], 0⟩ 1 2 =
        (preambleLines "foo" 1
          ++ (chunksOf (2 : Int).toNat
               ((ByteStream.mk [0, 255, 7] 0).data.drop
                 (ByteStream.mk [0, 255, 7] 0).pos)).map byteLine
          ++ trailerLines "foo"
               (((ByteStream.mk [0, 255, 7] 0).data.drop
                 (ByteStream.mk [0, 255, 7] 0).pos).length : Int),
         .ok (true, s2)) ∧
      ((chunksOf (2 : Int).toNat
          ((ByteStream.mk [0, 255, 7] 0).data.drop
            (ByteStream.mk [0, 255, 7] 0).pos)).map List.length).sum =
        ((ByteStream.mk [0, 255, 7] 0).data.drop
          (ByteStream.mk [0, 255, 7] 0).pos).length ∧
      trailerLines "foo"
          (((ByteStream.mk [0, 255, 7] 0).data.drop
            (ByteStream.mk [0, 255, 7] 0).pos).length : Int) =
        [ "", "foo" ++ "_end:", "", "  .align",
          "foo" ++ "_size: .int " ++
            toString (((ByteStream.mk [0, 255, 7] 0).data.drop
              (ByteStream.mk [0, 255, 7] 0).pos).length) ]) :=
  ⟨by decide, by decide, rfl, by decide, by decide,
    bin2s_size_roundtrip "foo" "foo" ⟨[0, 255, 7], 0⟩ 1 2 (by decide) (by decide)
      rfl (by decide) (by decide)⟩

/-- Claim C8: bin2s rejects a non-positive alignment or line_length
with the corresponding ValueError, and with both parameters positive
the only ValueError it can raise is the sanitizer's invalid-identifier
message, never an invalid-parameter one. -/
theorem bin2s_rejects_invalid_params (id : String) (s : ByteStream) (A L : Int) :
    (A ≤ 0 → bin2s id s A L = ([], .error "alignment must be greater than 0")) ∧
    (0 < A → L ≤ 0 →
      bin2s id s A L = ([], .error "line_length must be greater than 0")) ∧
    (0 < A → 0 < L → ∀ e, (bin2s id s A L).2 = .error e →
      e = "identifier doesn\x27t contain any legal characters") := by
  refine ⟨fun hA => bin2s_invalid_alignment id s A L hA,
    fun hA hL => bin2s_invalid_line_length id s A L hA hL, ?_⟩
  intro hA hL e he
  cases hs : sanitize_identifier id with
  | error e2 =>
    rw [bin2s_invalid_identifier id s A L e2 hA hL hs] at he
    have h1 : e2 = e := by injection he
    rw [← h1]
    exact sanitize_identifier_error_msg id e2 hs
  | ok ident =>
    exfalso
    simp only [bin2s, if_neg (not_not_intro hA), if_neg (not_not_intro hL), hs] at he
    rw [apply_ite Prod.snd] at he
    split at he <;> simp at he

/-- Witness for C8: zero or negative parameters are rejected even on an
empty stream, and with positive parameters the raised message is the
sanitizer's. -/
theorem bin2s_rejects_invalid_params_witness :
    ((0 : Int) ≤ 0 ∧
      bin2s "foo" ⟨[], 0⟩ 0 16 = ([], .error "alignment must be greater than 0")) ∧
    ((0 : Int) < 4 ∧ (-3 : Int) ≤ 0 ∧
      bin2s "foo" ⟨[], 0⟩ 4 (-3) = ([], .error "line_length must be greater than 0")) ∧
    ((0 : Int) < 4 ∧ (0 : Int) < 16 ∧
      (bin2s "$$$" ⟨[], 0⟩ 4 16).2 =
        .error "identifier doesn\x27t contain any legal characters" ∧
      "identifier doesn\x27t contain any legal characters" =
        "identifier doesn\x27t contain any legal characters") :=
  ⟨⟨by decide, (bin2s_rejects_invalid_params "foo" ⟨[], 0⟩ 0 16).1 (by decide)⟩,
   ⟨by decide, by decide,
     (bin2s_rejects_invalid_params "foo" ⟨[], 0⟩ 4 (-3)).2.1 (by decide) (by decide)⟩,
   ⟨by decide, by decide, rfl,
     (bin2s_rejects_invalid_params "$$$" ⟨[], 0⟩ 4 16).2.2 (by decide) (by decide)
       "identifier doesn\x27t contain any legal characters" rfl⟩⟩

/-- Claim C9: the payload is the bytes from the current position to the
end of the stream; a successful run leaves the stream data untouched
and advances the position by exactly the payload length, to the end of
the data, while the empty-payload run restores the starting position. -/
theorem bin2s_stream_frame (id ident : String) (s : ByteStream) (A L : Int)
    (hA : 0 < A) (hL : 0 < L)
    (hid : sanitize_identifier id = .ok ident)
    (hpos : s.pos ≤ s.data.length) :
    ∃ b lines s2, bin2s id s A L = (lines, .ok (b, s2)) ∧
      s2.data = s.data ∧
      s2.pos = s.pos + (s.data.drop s.pos).length ∧
      s.pos + (s.data.drop s.pos).length = s.data.length ∧
      (s.data.drop s.pos = [] → b = false ∧ s2 = s ∧ lines = []) ∧
      (s.data.drop s.pos ≠ [] → b = true) := by
  have hlen : s.pos + (s.data.drop s.pos).length = s.data.length := by
    rw [List.length_drop]
    omega
  by_cases hemp : s.data.drop s.pos = []
  · refine ⟨false, [], s, bin2s_empty_payload_eq id ident s A L hA hL hid hpos hemp,
      rfl, ?_, hlen, fun _ => ⟨rfl, rfl, rfl⟩, fun hcon => absurd hemp hcon⟩
    rw [hemp]
    simp
  · exact ⟨true, _, ⟨s.data, s.pos + (s.data.drop s.pos).length⟩,
      bin2s_ok id ident s A L hA hL hid hpos hemp, rfl, rfl, hlen,
      fun hcon => absurd hcon hemp, fun _ => rfl⟩

/-- Witness for C9 at a partially consumed stream: position 1 of three
bytes, so the payload is the remaining two bytes. -/
theorem bin2s_stream_frame_witness :
    (0 : Int) < 4 ∧ (0 : Int) < 16 ∧
    sanitize_identifier "foo" = .ok "foo" ∧
    (ByteStream.mk [1, 2, 3] 1).pos ≤ (ByteStream.mk [1, 2, 3] 1).data.length ∧
    (∃ b lines s2, bin2s "foo" ⟨[1, 2, 3], 1⟩ 4 16 = (lines, .ok (b, s2)) ∧
      s2.data = (ByteStream.mk [1, 2, 3] 1).data ∧
      s2.pos = (ByteStream.mk [1, 2, 3] 1).pos +
        ((ByteStream.mk [1, 2, 3] 1).data.drop (ByteStream.mk [1, 2, 3] 1).pos).length ∧
      (ByteStream.mk [1, 2, 3] 1).pos +
        ((ByteStream.mk [1, 2, 3] 1).data.drop (ByteStream.mk [1, 2, 3] 1).pos).length =
        (ByteStream.mk [1, 2, 3] 1).data.length ∧
      ((ByteStream.mk [1, 2, 3] 1).data.drop (ByteStream.mk [1, 2, 3] 1).pos = [] →
        b = false ∧ s2 = ⟨[1, 2, 3], 1⟩ ∧ lines = []) ∧
      ((ByteStream.mk [1, 2, 3] 1).data.drop (ByteStream.mk [1, 2, 3] 1).pos ≠ [] →
        b = true)) :=
  ⟨by decide, by decide, rfl, by decide,
    bin2s_stream_frame "foo" "foo" ⟨[1, 2, 3], 1⟩ 4 16 (by decide) (by decide)
      rfl (by decide)⟩

/-- Claim C10: the parameter checks and the identifier sanitization all
run before any output, so every error path writes nothing and raises,
in particular on an empty payload, where the error wins over the
False return. -/
theorem bin2s_checks_precede_output (id : String) (s : ByteStream) (A L : Int) :
    (A ≤ 0 → bin2s id s A L = ([], .error "alignment must be greater than 0")) ∧
    (0 < A → L ≤ 0 →
      bin2s id s A L = ([], .error "line_length must be greater than 0")) ∧
    (0 < A → 0 < L → ∀ e, sanitize_identifier id = .error e →
      bin2s id s A L = ([], .error e)) :=
  ⟨fun hA => bin2s_invalid_alignment id s A L hA,
   fun hA hL => bin2s_invalid_line_length id s A L hA hL,
   fun hA hL e he => bin2s_invalid_identifier id s A L e hA hL he⟩

/-- Witness for C10: the error paths exercised on an empty stream,
where without the error bin2s would have returned False. -/
theorem bin2s_checks_precede_output_witness :
    ((-2 : Int) ≤ 0 ∧
      bin2s "foo" ⟨[], 0⟩ (-2) 16 = ([], .error "alignment must be greater than 0")) ∧
    ((0 : Int) < 4 ∧ (0 : Int) ≤ 0 ∧
      bin2s "foo" ⟨[], 0⟩ 4 0 = ([], .error "line_length must be greater than 0")) ∧
    ((0 : Int) < 4 ∧ (0 : Int) < 16 ∧
      sanitize_identifier "$$$" =
        .error "identifier doesn\x27t contain any legal characters" ∧
      bin2s "$$$" ⟨[], 0⟩ 4 16 =
        ([], .error "identifier doesn\x27t contain any legal characters")) :=
  ⟨⟨by decide, (bin2s_checks_precede_output "foo" ⟨[], 0⟩ (-2) 16).1 (by decide)⟩,
   ⟨by decide, by decide,
     (bin2s_checks_precede_output "foo" ⟨[], 0⟩ 4 0).2.1 (by decide) (by decide)⟩,
   ⟨by decide, by decide, rfl,
     (bin2s_checks_precede_output "$$$" ⟨[], 0⟩ 4 16).2.2 (by decide) (by decide)
       "identifier doesn\x27t contain any legal characters" rfl⟩⟩

/-- Witness for C5 at an input with no legal characters. -/
theorem sanitize_identifier_error_iff_witness :
    (∃ e, sanitize_identifier "$$$" = .error e) ↔
      (∀ c ∈ "$$$".data, isLegalChar c = false) :=
  sanitize_identifier_error_iff "$$$"
